import Mathlib

/-!
Shallow embedding of the contact-directory program (`bot.py`): validated
fields (`Phone`, `Birthday`), contact `Record`s with phone editing, and the
`AddressBook` with its `get_upcoming_birthdays` query.

Modelling conventions:
* Python strings are modelled as `List Char`; digit classes are the ASCII
  decimal digits `'0'..'9'` (the inputs the program is written for).
* Python exceptions become `Except PyErr`; `PyErr` records the exception
  class (`ValueError`, `KeyError`, `IndexError`) and its message, since both
  are observable by a caller.
* `datetime.date` becomes `PyDate` (proleptic Gregorian year/month/day) with
  `toOrdinal` matching CPython's `date.toordinal` (1.1.0001 ↦ 1) and
  `weekday` matching `date.weekday` (Monday = 0).
* `date.today()` is an input of the program run, so `get_upcoming_birthdays`
  takes `today` as an explicit parameter.
* In-place mutation of a `Record` becomes explicit state passing:
  `Record.edit_phone` returns the outcome together with the post-call record,
  so that what an aborted call left behind is part of the model.
-/

deriving instance DecidableEq for Except

namespace Bot

/-- Numeric value of an ASCII digit character. -/
def chVal (c : Char) : Nat := c.toNat - 48

/-- ASCII decimal digit `'0'..'9'` (the embedding of Python's digit class). -/
def isDig (c : Char) : Bool := 48 ≤ c.toNat && c.toNat ≤ 57

/-- ASCII digit `'1'..'9'` (the regex class `[1-9]`). -/
def isDig19 (c : Char) : Bool := 49 ≤ c.toNat && c.toNat ≤ 57

/-- The Python exception classes the program raises. -/
inductive PyKind where
  | valueError
  | keyError
  | indexError
deriving DecidableEq

/-- An exception value: its class and its message. -/
structure PyErr where
  kind : PyKind
  msg : List Char
deriving DecidableEq

/-- `str.isdigit`: true on a non-empty all-digit string. -/
def str_isdigit (s : List Char) : Bool := !s.isEmpty && s.all isDig

def phoneErrMsg : List Char := "The phone number must contain 10 digits!".toList

/-- The `ValueError` raised by `Phone.__init__`. -/
def phoneErr : PyErr := ⟨.valueError, phoneErrMsg⟩

/-- `Phone.__init__`: `if not value.isdigit() or len(value) != 10: raise ValueError(...)`,
otherwise the value is stored. -/
def mkPhone (s : List Char) : Except PyErr (List Char) :=
  if !str_isdigit s || s.length != 10 then .error phoneErr else .ok s

/-- `calendar`-style leap-year test used by `datetime`. -/
def isLeap (y : Nat) : Bool := y % 4 == 0 && (y % 100 != 0 || y % 400 == 0)

/-- Length of a month (month numbered 1..12). -/
def daysInMonth (y m : Nat) : Nat :=
  if m = 2 then (if isLeap y then 29 else 28)
  else if m = 4 ∨ m = 6 ∨ m = 9 ∨ m = 11 then 30
  else 31

/-- A `datetime.date`: proleptic Gregorian year, month, day. -/
structure PyDate where
  year : Nat
  month : Nat
  day : Nat
deriving DecidableEq

/-- `datetime`'s `_check_date_fields`: the constructor's validity condition. -/
def PyDate.Valid (d : PyDate) : Prop :=
  1 ≤ d.year ∧ d.year ≤ 9999 ∧ 1 ≤ d.month ∧ d.month ≤ 12 ∧
    1 ≤ d.day ∧ d.day ≤ daysInMonth d.year d.month

instance (d : PyDate) : Decidable d.Valid := by
  unfold PyDate.Valid; exact inferInstance

/-- Days before January 1 of year `y` (as in `datetime._days_before_year`). -/
def daysBeforeYear (y : Nat) : Nat :=
  365 * (y - 1) + (y - 1) / 4 - (y - 1) / 100 + (y - 1) / 400

/-- Cumulative day counts before each month of a non-leap year. -/
def daysBeforeMonthTbl : List Nat :=
  [0, 31, 59, 90, 120, 151, 181, 212, 243, 273, 304, 334]

/-- Days in year `y` strictly before month `m` (as in `datetime._days_before_month`). -/
def daysBeforeMonth (y m : Nat) : Nat :=
  daysBeforeMonthTbl.getD (m - 1) 0 + (if 2 < m ∧ isLeap y then 1 else 0)

/-- `date.toordinal`: 01.01.0001 has ordinal 1. -/
def PyDate.toOrdinal (d : PyDate) : Nat :=
  daysBeforeYear d.year + daysBeforeMonth d.year d.month + d.day

/-- `date.weekday`: Monday = 0 .. Sunday = 6. -/
def PyDate.weekday (d : PyDate) : Nat := (d.toOrdinal + 6) % 7

/-- `(a - b).days` for two dates: difference of ordinals. -/
def dateSub (a b : PyDate) : Int := (a.toOrdinal : Int) - (b.toOrdinal : Int)

/-- Python's `<` on dates: lexicographic on (year, month, day). -/
def PyDate.Before (a b : PyDate) : Prop :=
  a.year < b.year ∨ (a.year = b.year ∧
    (a.month < b.month ∨ (a.month = b.month ∧ a.day < b.day)))

instance (a b : PyDate) : Decidable (a.Before b) := by
  unfold PyDate.Before; exact inferInstance

/-- Successor day in the calendar (carries over month and year ends). -/
def nextDay (d : PyDate) : PyDate :=
  if d.day < daysInMonth d.year d.month then ⟨d.year, d.month, d.day + 1⟩
  else if d.month < 12 then ⟨d.year, d.month + 1, 1⟩
  else ⟨d.year + 1, 1, 1⟩

/-- `date + timedelta(days=n)` for `n ≥ 0`. -/
def addDays (d : PyDate) : Nat → PyDate
  | 0 => d
  | n + 1 => nextDay (addDays d n)

def dateRangeErrMsg : List Char := "day is out of range for month".toList

/-- `date.replace(year=y)`: rebuilds the date with the new year, re-running the
field check; raises `ValueError` when the resulting date does not exist. -/
def replaceYear (d : PyDate) (y : Nat) : Except PyErr PyDate :=
  if PyDate.Valid ⟨y, d.month, d.day⟩ then .ok ⟨y, d.month, d.day⟩
  else .error ⟨.valueError, dateRangeErrMsg⟩

/-- `strptime`'s `%d` pattern `3[01]|[12]\d|0[1-9]|[1-9]| [1-9]`, applied to the
whole token between dots: the day value it denotes, if it matches. -/
def dayTokVal : List Char → Option Nat
  | [c] => if isDig19 c then some (chVal c) else none
  | [c1, c2] =>
    if c1.toNat = 32 then (if isDig19 c2 then some (chVal c2) else none)
    else if c1.toNat = 51 then
      (if c2.toNat = 48 ∨ c2.toNat = 49 then some (30 + chVal c2) else none)
    else if c1.toNat = 49 ∨ c1.toNat = 50 then
      (if isDig c2 then some (10 * chVal c1 + chVal c2) else none)
    else if c1.toNat = 48 then (if isDig19 c2 then some (chVal c2) else none)
    else none
  | _ => none

/-- `strptime`'s `%m` pattern `1[0-2]|0[1-9]|[1-9]`, applied to the whole token. -/
def monthTokVal : List Char → Option Nat
  | [c] => if isDig19 c then some (chVal c) else none
  | [c1, c2] =>
    if c1.toNat = 49 then
      (if c2.toNat = 48 ∨ c2.toNat = 49 ∨ c2.toNat = 50
        then some (10 + chVal c2) else none)
    else if c1.toNat = 48 then (if isDig19 c2 then some (chVal c2) else none)
    else none
  | _ => none

/-- `strptime`'s `%Y` pattern: exactly four digits. -/
def yearTokVal : List Char → Option Nat
  | [c1, c2, c3, c4] =>
    if isDig c1 && isDig c2 && isDig c3 && isDig c4 then
      some (1000 * chVal c1 + 100 * chVal c2 + 10 * chVal c3 + chVal c4)
    else none
  | _ => none

/-- Split a string at every dot (the literal separators of `"%d.%m.%Y"`). -/
def splitOnDot : List Char → List (List Char)
  | [] => [[]]
  | c :: rest =>
    if c = '.' then [] :: splitOnDot rest
    else
      match splitOnDot rest with
      | [] => [[c]]
      | t :: ts => (c :: t) :: ts

/-- `datetime.strptime(s, "%d.%m.%Y").date()`: the dot-separated tokens must
match the `%d`, `%m`, `%Y` patterns, the whole string must be consumed, and the
resulting fields must form a real date. -/
def strptimeDMY (s : List Char) : Option PyDate :=
  match splitOnDot s with
  | [dTok, mTok, yTok] =>
    match dayTokVal dTok, monthTokVal mTok, yearTokVal yTok with
    | some dv, some mv, some yv =>
      if PyDate.Valid ⟨yv, mv, dv⟩ then some ⟨yv, mv, dv⟩ else none
    | _, _, _ => none
  | _ => none

def dateFmtErrMsg : List Char := "Invalid date format. Use DD.MM.YYYY!".toList

/-- The `ValueError` raised by `Birthday.__init__` on any parse failure. -/
def dateFmtErr : PyErr := ⟨.valueError, dateFmtErrMsg⟩

/-- `Birthday.__init__`: parse under `"%d.%m.%Y"`, store the date, translate
any `ValueError` into the fixed format error. -/
def mkBirthday (s : List Char) : Except PyErr PyDate :=
  match strptimeDMY s with
  | some d => .ok d
  | none => .error dateFmtErr

/-- A contact record: name (a bare `Field`, stored unchecked), phone values in
insertion order, optional birthday. -/
structure Record where
  name : List Char
  phones : List (List Char)
  birthday : Option PyDate
deriving DecidableEq

/-- `Record.__init__`: wraps the name with no validation, empty phones, no birthday. -/
def Record.create (name : List Char) : Record := ⟨name, [], none⟩

/-- `Record.add_phone`: validate, then append. -/
def Record.add_phone (r : Record) (p : List Char) : Except PyErr Record :=
  (mkPhone p).map (fun v => { r with phones := r.phones ++ [v] })

/-- `Record.remove_phone`: drop every phone whose value equals `p`. -/
def Record.remove_phone (r : Record) (p : List Char) : Record :=
  { r with phones := r.phones.filter (fun q => q != p) }

/-- Message of the `ValueError` raised when `edit_phone` finds no match. -/
def notFoundMsg (old : List Char) : List Char :=
  "Phone number ".toList ++ old ++ " not found!".toList

/-- The `for phone in self.phones` loop of `edit_phone`: overwrite the first
phone equal to `old` with `newv` and stop; `none` when the loop falls through. -/
def editLoop (newv old : List Char) : List (List Char) → Option (List (List Char))
  | [] => none
  | p :: rest =>
    if p = old then some (newv :: rest)
    else (editLoop newv old rest).map (fun ps => p :: ps)

/-- `Record.edit_phone`, with the record's post-call state made explicit:
validate `new_phone` first (raising leaves the record untouched), then replace
the first match in place, else raise the not-found `ValueError`. -/
def Record.edit_phone (r : Record) (old new_phone : List Char) :
    Except PyErr Unit × Record :=
  match mkPhone new_phone with
  | .error e => (.error e, r)
  | .ok newv =>
    match editLoop newv old r.phones with
    | some ps => (.ok (), { r with phones := ps })
    | none => (.error ⟨.valueError, notFoundMsg old⟩, r)

/-- `Record.find_phone`: first phone with the given value. -/
def Record.find_phone (r : Record) (p : List Char) : Option (List Char) :=
  r.phones.find? (fun q => q == p)

/-- `Record.add_birthday`: validate and overwrite the birthday field. -/
def Record.add_birthday (r : Record) (s : List Char) : Except PyErr Record :=
  (mkBirthday s).map (fun d => { r with birthday := some d })

/-- The address book's `data` dict, insertion-ordered.  Every insertion goes
through `add_record`, which keys each record by its own name, so the dict is
the insertion-ordered list of records (key = `record.name`). -/
abbrev AddressBook := List Record

/-- `AddressBook.add_record`: `self.data[record.name.value] = record` — an
existing key keeps its position and gets the new record; a fresh key is
appended at the end. -/
def add_record (book : AddressBook) (r : Record) : AddressBook :=
  if book.any (fun q => q.name == r.name) then
    book.map (fun q => if q.name == r.name then r else q)
  else book ++ [r]

/-- `AddressBook.find`: `self.data.get(name)`. -/
def findRecord (book : AddressBook) (name : List Char) : Option Record :=
  book.find? (fun q => q.name == name)

/-- `AddressBook.delete`: remove the entry if present, no-op otherwise. -/
def deleteRecord (book : AddressBook) (name : List Char) : AddressBook :=
  book.filter (fun q => q.name != name)

/-- `find_next_weekday(start_date, weekday)`: days ahead to the requested
weekday, pushed a week forward when not strictly positive. -/
def find_next_weekday (start : PyDate) (weekday : Nat) : PyDate :=
  if (weekday : Int) - (start.weekday : Int) ≤ 0 then
    addDays start ((weekday : Int) - (start.weekday : Int) + 7).toNat
  else addDays start ((weekday : Int) - (start.weekday : Int)).toNat

/-- `adjust_for_weekend`: move to the following Monday when the date falls on
Saturday or Sunday. -/
def adjust_for_weekend (birthday : PyDate) : PyDate :=
  if 5 ≤ birthday.weekday then find_next_weekday birthday 0 else birthday

/-- Two-digit zero-padded field of `strftime`. -/
def pad2 (n : Nat) : List Char := [Nat.digitChar (n / 10 % 10), Nat.digitChar (n % 10)]

/-- Four-digit zero-padded year field of `strftime`. -/
def pad4 (n : Nat) : List Char :=
  [Nat.digitChar (n / 1000 % 10), Nat.digitChar (n / 100 % 10),
    Nat.digitChar (n / 10 % 10), Nat.digitChar (n % 10)]

/-- `d.strftime("%d.%m.%Y")`. -/
def strftimeDMY (d : PyDate) : List Char :=
  pad2 d.day ++ ['.'] ++ pad2 d.month ++ ['.'] ++ pad4 d.year

/-- One iteration of the `get_upcoming_birthdays` loop: `ok none` when the
record is skipped, `ok (some entry)` when it is emitted, `error` when a
`replace` raises. -/
def processRecord (today : PyDate) (days : Int) (r : Record) :
    Except PyErr (Option (List Char × List Char)) :=
  match r.birthday with
  | none => .ok none
  | some bd =>
    match replaceYear bd today.year with
    | .error e => .error e
    | .ok bty1 =>
      match (if bty1.Before today then replaceYear bd (today.year + 1) else .ok bty1) with
      | .error e => .error e
      | .ok bty =>
        if 0 ≤ dateSub bty today ∧ dateSub bty today ≤ days then
          .ok (some (r.name, strftimeDMY (adjust_for_weekend bty)))
        else .ok none

/-- `AddressBook.get_upcoming_birthdays`: walk the records in insertion order,
collecting emitted entries; an uncaught `ValueError` from a `replace` aborts
the whole call. -/
def get_upcoming_birthdays (today : PyDate) (days : Int) :
    AddressBook → Except PyErr (List (List Char × List Char))
  | [] => .ok []
  | r :: rest =>
    match processRecord today days r with
    | .error e => .error e
    | .ok none => get_upcoming_birthdays today days rest
    | .ok (some entry) =>
      match get_upcoming_birthdays today days rest with
      | .error e => .error e
      | .ok res => .ok (entry :: res)

/-! ### Spec-side definitions

The following definitions transcribe the specification's wording (not the
code); the theorems below compare the code against them. -/

/-- Spec-side: a decimal-digit character, `'0'..'9'`. -/
def IsDecimalDigit (c : Char) : Prop := 48 ≤ c.toNat ∧ c.toNat ≤ 57

instance (c : Char) : Decidable (IsDecimalDigit c) := by
  unfold IsDecimalDigit; exact inferInstance

/-- Spec-side: the occurrence of a birthday relative to `today` — this year's
month/day, advanced by exactly one year when this year's occurrence falls
strictly before today, and never advanced more than once. -/
def occurrenceSpec (bd today : PyDate) : PyDate :=
  if (⟨today.year, bd.month, bd.day⟩ : PyDate).Before today then
    ⟨today.year + 1, bd.month, bd.day⟩
  else ⟨today.year, bd.month, bd.day⟩

/-- Spec-side: the occurrence falls within `[today, today + days]`, inclusive
on both ends. -/
def InWindowSpec (occ today : PyDate) (days : Int) : Prop :=
  (today.toOrdinal : Int) ≤ (occ.toOrdinal : Int) ∧
    (occ.toOrdinal : Int) ≤ (today.toOrdinal : Int) + days

instance (occ today : PyDate) (days : Int) :
    Decidable (InWindowSpec occ today days) := by
  unfold InWindowSpec; exact inferInstance

/-- Spec-side business-day policy: a Saturday occurrence is moved 2 days
forward, a Sunday occurrence 1 day forward, a weekday occurrence is kept. -/
def weekendShiftSpec (d : PyDate) : PyDate :=
  if d.weekday = 5 then addDays d 2
  else if d.weekday = 6 then addDays d 1
  else d

/-- Both `replace` calls that `get_upcoming_birthdays` may perform on a
birthday succeed: this year's rebuilt date exists, and when the wrap to the
next year is taken, that date exists too. -/
def RepOk (bd today : PyDate) : Prop :=
  PyDate.Valid ⟨today.year, bd.month, bd.day⟩ ∧
    ((⟨today.year, bd.month, bd.day⟩ : PyDate).Before today →
      PyDate.Valid ⟨today.year + 1, bd.month, bd.day⟩)

/-- Spec-side: `c` is the digit character of value `v`. -/
def IsDigitCh (c : Char) (v : Nat) : Prop := c.toNat = 48 + v ∧ v ≤ 9

instance (c : Char) (v : Nat) : Decidable (IsDigitCh c v) := by
  unfold IsDigitCh; exact inferInstance

/-- Spec-side day token: a two-digit day `01`–`31`, a single digit `1`–`9`,
or a space followed by a digit `1`–`9`. -/
def DayTokSpec (t : List Char) (v : Nat) : Prop :=
  (∃ c1 c2 v1 v2, t = [c1, c2] ∧ IsDigitCh c1 v1 ∧ IsDigitCh c2 v2 ∧
    v = 10 * v1 + v2 ∧ 1 ≤ v ∧ v ≤ 31) ∨
  (∃ c, t = [c] ∧ IsDigitCh c v ∧ 1 ≤ v ∧ v ≤ 9) ∨
  (∃ c, t = [' ', c] ∧ IsDigitCh c v ∧ 1 ≤ v ∧ v ≤ 9)

/-- Spec-side month token: a two-digit month `01`–`12` or a single digit
`1`–`9`. -/
def MonthTokSpec (t : List Char) (v : Nat) : Prop :=
  (∃ c1 c2 v1 v2, t = [c1, c2] ∧ IsDigitCh c1 v1 ∧ IsDigitCh c2 v2 ∧
    v = 10 * v1 + v2 ∧ 1 ≤ v ∧ v ≤ 12) ∨
  (∃ c, t = [c] ∧ IsDigitCh c v ∧ 1 ≤ v ∧ v ≤ 9)

/-- Spec-side year token: exactly four digits. -/
def YearTokSpec (t : List Char) (v : Nat) : Prop :=
  ∃ c1 c2 c3 c4 v1 v2 v3 v4, t = [c1, c2, c3, c4] ∧
    IsDigitCh c1 v1 ∧ IsDigitCh c2 v2 ∧ IsDigitCh c3 v3 ∧ IsDigitCh c4 v4 ∧
    v = 1000 * v1 + 100 * v2 + 10 * v3 + v4

/-- Spec-side acceptance condition for birthday text: day token, dot, month
token, dot, year token, denoting a real calendar date. -/
def BirthdayAccepts (s : List Char) : Prop :=
  ∃ dTok mTok yTok dv mv yv,
    s = dTok ++ '.' :: (mTok ++ '.' :: yTok) ∧
    DayTokSpec dTok dv ∧ MonthTokSpec mTok mv ∧ YearTokSpec yTok yv ∧
    PyDate.Valid ⟨yv, mv, dv⟩

/-- Rejoin dot-separated parts (left inverse of `splitOnDot`). -/
def joinDots : List (List Char) → List Char
  | [] => []
  | [t] => t
  | t :: ts => t ++ '.' :: joinDots ts

/-! ### Helper lemmas -/

theorem str_isdigit_iff (s : List Char) :
    str_isdigit s = true ↔ s ≠ [] ∧ ∀ c ∈ s, IsDecimalDigit c := by
  simp [str_isdigit, isDig, IsDecimalDigit, List.all_eq_true, List.isEmpty_iff]

theorem mkPhone_ok_iff (s : List Char) :
    mkPhone s = .ok s ↔ s.length = 10 ∧ ∀ c ∈ s, IsDecimalDigit c := by
  unfold mkPhone
  constructor
  · intro h
    by_cases hc : (!str_isdigit s || s.length != 10) = true
    · rw [if_pos hc] at h; exact absurd h (by simp)
    · rw [Bool.not_eq_true] at hc
      simp only [Bool.or_eq_false_iff, Bool.not_eq_false', bne_eq_false_iff_eq] at hc
      obtain ⟨h1, h2⟩ := hc
      have := (str_isdigit_iff s).mp h1
      exact ⟨h2, this.2⟩
  · rintro ⟨h1, h2⟩
    have hne : s ≠ [] := by intro e; subst e; simp at h1
    have hd : str_isdigit s = true := (str_isdigit_iff s).mpr ⟨hne, h2⟩
    rw [if_neg (by simp [hd, h1])]

/-- Claim C5: `PhoneNumber` construction succeeds exactly when the input is
exactly 10 decimal-digit characters; every other string fails with the
invalid-format `ValueError`. -/
theorem claim5_phone_validation (s : List Char) :
    ((∃ p, mkPhone s = .ok p) ↔ s.length = 10 ∧ ∀ c ∈ s, IsDecimalDigit c) ∧
    (¬(s.length = 10 ∧ ∀ c ∈ s, IsDecimalDigit c) → mkPhone s = .error phoneErr) := by
  constructor
  · constructor
    · rintro ⟨p, hp⟩
      have : mkPhone s = .ok s := by
        unfold mkPhone at hp ⊢
        by_cases hc : (!str_isdigit s || s.length != 10) = true
        · rw [if_pos hc] at hp; exact absurd hp (by simp)
        · rw [if_neg hc]
      exact (mkPhone_ok_iff s).mp this
    · intro h; exact ⟨s, (mkPhone_ok_iff s).mpr h⟩
  · intro h
    unfold mkPhone
    by_cases hc : (!str_isdigit s || s.length != 10) = true
    · rw [if_pos hc]
    · exfalso
      exact h ((mkPhone_ok_iff s).mp (by unfold mkPhone; rw [if_neg hc]))

/-- Witness for C5 at the spec's own test inputs. -/
theorem claim5_witness :
    (∃ p, mkPhone "5551234567".toList = .ok p) ∧
    mkPhone "55512345".toList = .error phoneErr ∧
    mkPhone "555123456a".toList = .error phoneErr :=
  ⟨(claim5_phone_validation "5551234567".toList).1.mpr (by decide),
   (claim5_phone_validation "55512345".toList).2 (by decide),
   (claim5_phone_validation "555123456a".toList).2 (by decide)⟩

/-- Claim C4: whenever `edit_phone` fails — invalid replacement value or no
matching phone — the record after the call is exactly the record before it. -/
theorem claim4_edit_phone_atomic (r : Record) (old np : List Char) (e : PyErr)
    (h : (r.edit_phone old np).1 = .error e) : (r.edit_phone old np).2 = r := by
  cases hm : mkPhone np with
  | error e2 => simp [Record.edit_phone, hm]
  | ok v =>
    cases hl : editLoop v old r.phones with
    | none => simp [Record.edit_phone, hm, hl]
    | some ps =>
      exfalso
      simp [Record.edit_phone, hm, hl] at h

/-- Witness for C4: a failing `edit_phone` left the record unchanged. -/
theorem claim4_witness :
    ((Record.edit_phone ⟨"A".toList, ["1111111111".toList], none⟩
        "9999999999".toList "0000000000".toList).1
      = .error ⟨.valueError, notFoundMsg "9999999999".toList⟩) ∧
    (Record.edit_phone ⟨"A".toList, ["1111111111".toList], none⟩
        "9999999999".toList "0000000000".toList).2
      = ⟨"A".toList, ["1111111111".toList], none⟩ :=
  ⟨by decide,
   claim4_edit_phone_atomic _ _ _ ⟨.valueError, notFoundMsg "9999999999".toList⟩ (by decide)⟩

theorem editLoop_first (np old : List Char) (b : List (List Char)) :
    ∀ a, old ∉ a → editLoop np old (a ++ old :: b) = some (a ++ np :: b) := by
  intro a
  induction a with
  | nil => intro _; simp [editLoop]
  | cons p ps ih =>
    intro hl
    have hp : ¬(p = old) := fun e => hl (by simp [e])
    have hps : old ∉ ps := fun e => hl (List.mem_cons_of_mem _ e)
    simp only [List.cons_append, editLoop, List.append_eq]
    rw [if_neg hp, ih hps]
    rfl

/-- Claim C6: `edit_phone` on a phone list containing `old` (also as a later
duplicate) replaces only the first occurrence, keeping every other phone —
the later duplicates included — at its position and value. -/
theorem claim6_edit_first_match (r : Record) (a b : List (List Char))
    (old np : List Char) (hph : r.phones = a ++ old :: b) (hna : old ∉ a)
    (_hdup : old ∈ b) (hok : mkPhone np = .ok np) :
    r.edit_phone old np = (.ok (), { r with phones := a ++ np :: b }) := by
  have hloop := editLoop_first np old b a hna
  simp [Record.edit_phone, hok, hph, hloop]

/-- Witness for C6: the first of two duplicates is replaced, the second kept. -/
theorem claim6_witness :
    Record.edit_phone
        ⟨"A".toList, ["1111111111".toList, "1111111111".toList, "2222222222".toList], none⟩
        "1111111111".toList "3333333333".toList
      = (.ok (), ⟨"A".toList,
          ["3333333333".toList, "1111111111".toList, "2222222222".toList], none⟩) :=
  claim6_edit_first_match _ [] ["1111111111".toList, "2222222222".toList] _ _
    rfl (by decide) (by decide) (by decide)

theorem findRecord_overwrite_self (book : AddressBook) (r : Record)
    (h : book.any (fun q => q.name == r.name) = true) :
    findRecord (book.map (fun q => if q.name == r.name then r else q)) r.name
      = some r := by
  induction book with
  | nil => simp at h
  | cons q bs ih =>
    by_cases hq : (q.name == r.name) = true
    · unfold findRecord
      rw [List.map_cons, if_pos hq, List.find?_cons_of_pos _ (by simp)]
    · unfold findRecord
      rw [List.map_cons, if_neg hq, List.find?_cons_of_neg _ (by simp_all)]
      have hb : bs.any (fun q => q.name == r.name) = true := by
        simp only [List.any_cons, hq, Bool.false_or] at h; exact h
      exact ih hb

theorem findRecord_overwrite_other (book : AddressBook) (r : Record)
    (n : List Char) (hn : n ≠ r.name) :
    findRecord (book.map (fun q => if q.name == r.name then r else q)) n
      = findRecord book n := by
  induction book with
  | nil => rfl
  | cons q bs ih =>
    by_cases hq : (q.name == r.name) = true
    · have hqe : q.name = r.name := by simpa using hq
      unfold findRecord
      rw [List.map_cons, if_pos hq,
        List.find?_cons_of_neg _ (by simp; exact fun e => hn e.symm),
        List.find?_cons_of_neg _ (by simp [hqe]; exact fun e => hn e.symm)]
      exact ih
    · unfold findRecord
      rw [List.map_cons, if_neg hq]
      cases hqn : (q.name == n) with
      | true =>
        rw [@List.find?_cons_of_pos _ (fun x => x.name == n) q
            (bs.map (fun x => if x.name == r.name then r else x)) hqn,
          @List.find?_cons_of_pos _ (fun x => x.name == n) q bs hqn]
      | false =>
        rw [@List.find?_cons_of_neg _ (fun x => x.name == n) q
            (bs.map (fun x => if x.name == r.name then r else x)) (by simp_all),
          @List.find?_cons_of_neg _ (fun x => x.name == n) q bs (by simp_all)]
        exact ih

/-- Claim C7: `add_record` under an existing name replaces the stored record
entirely and leaves every other name's lookup unchanged; under a fresh name it
appends a new entry, the rest of the book staying as it was. -/
theorem claim7_add_record_overwrites (book : AddressBook) (r : Record) :
    findRecord (add_record book r) r.name = some r ∧
    (∀ n, n ≠ r.name → findRecord (add_record book r) n = findRecord book n) ∧
    ((∀ q ∈ book, q.name ≠ r.name) → add_record book r = book ++ [r]) := by
  unfold add_record
  by_cases hmem : book.any (fun q => q.name == r.name) = true
  · rw [if_pos hmem]
    refine ⟨findRecord_overwrite_self book r hmem,
      fun n hn => findRecord_overwrite_other book r n hn, fun hfresh => ?_⟩
    exfalso
    simp only [List.any_eq_true, beq_iff_eq] at hmem
    obtain ⟨q, hq, he⟩ := hmem
    exact hfresh q hq he
  · rw [if_neg hmem]
    have hnone : List.find? (fun q => q.name == r.name) book = none := by
      rw [List.find?_eq_none]
      intro x hx
      simp only [List.any_eq_true] at hmem
      exact fun hb => hmem ⟨x, hx, hb⟩
    refine ⟨?_, ?_, fun _ => rfl⟩
    · unfold findRecord
      rw [List.find?_append, hnone]
      simp [List.find?]
    · intro n hn
      unfold findRecord
      rw [List.find?_append]
      have h1 : List.find? (fun q => q.name == n) [r] = none := by
        rw [List.find?_eq_none]
        intro x hx
        simp only [List.mem_singleton] at hx
        subst hx
        simp only [beq_iff_eq]
        exact fun e => hn e.symm
      rw [h1]
      cases List.find? (fun q => q.name == n) book <;> rfl

/-- Witness for C7: overwrite of an existing name, other lookups untouched. -/
theorem claim7_witness :
    findRecord
        (add_record [⟨"A".toList, ["1111111111".toList], none⟩]
          ⟨"A".toList, [], some ⟨1990, 6, 15⟩⟩) "A".toList
      = some ⟨"A".toList, [], some ⟨1990, 6, 15⟩⟩ ∧
    findRecord
        (add_record [⟨"A".toList, ["1111111111".toList], none⟩]
          ⟨"A".toList, [], some ⟨1990, 6, 15⟩⟩) "B".toList
      = findRecord [⟨"A".toList, ["1111111111".toList], none⟩] "B".toList :=
  ⟨(claim7_add_record_overwrites _ _).1,
   (claim7_add_record_overwrites _ _).2.1 "B".toList (by decide)⟩

/-- Counterexample to C9 as stated: constructing a record from the empty
string succeeds — the code runs no emptiness check — where the claim says it
must fail. -/
theorem claim9_counterexample : Record.create [] = ⟨[], [], none⟩ := rfl

/-- Claim C9 as amended: name construction accepts every string, the empty
string included, with no validation of any kind: the record is created
carrying exactly the given name. -/
theorem claim9_name_no_validation (s : List Char) :
    (Record.create s).name = s ∧ (Record.create s).phones = [] ∧
      (Record.create s).birthday = none :=
  ⟨rfl, rfl, rfl⟩

theorem editLoop_not_mem (np old : List Char) :
    ∀ l, old ∉ l → editLoop np old l = none := by
  intro l
  induction l with
  | nil => intro _; rfl
  | cons p ps ih =>
    intro hl
    have hp : ¬(p = old) := fun e => hl (by simp [e])
    have hps : old ∉ ps := fun e => hl (List.mem_cons_of_mem _ e)
    simp only [editLoop]
    rw [if_neg hp, ih hps]
    rfl

theorem notFoundMsg_ne_phoneErrMsg (old : List Char) :
    notFoundMsg old ≠ phoneErrMsg := by
  intro h
  have h0 : ('P' : Char) :: (("hone number ".toList ++ old) ++ " not found!".toList)
      = ('T' : Char) :: "he phone number must contain 10 digits!".toList := h
  simp at h0

theorem notFoundMsg_ne_dateFmtErrMsg (old : List Char) :
    notFoundMsg old ≠ dateFmtErrMsg := by
  intro h
  have h0 : ('P' : Char) :: (("hone number ".toList ++ old) ++ " not found!".toList)
      = ('I' : Char) :: "nvalid date format. Use DD.MM.YYYY!".toList := h
  simp at h0

/-- Counterexample to C8 as stated: the two failures carry the same exception
kind — a format failure and a not-found failure are both `ValueError` — so
"not found" is not a distinct error kind. -/
theorem claim8_counterexample :
    mkPhone "555123456a".toList = .error phoneErr ∧
    (Record.edit_phone ⟨"A".toList, ["1111111111".toList], none⟩
        "9999999999".toList "0000000000".toList).1
      = .error ⟨.valueError, notFoundMsg "9999999999".toList⟩ ∧
    phoneErr.kind = PyErr.kind ⟨.valueError, notFoundMsg "9999999999".toList⟩ :=
  ⟨by decide, by decide, rfl⟩

/-- Claim C8 as amended: the not-found failure of `edit_phone` is raised as the
same exception kind (`ValueError`) as the format failures; the caller can tell
the failures apart only from the message text, which always differs from both
constructor messages. -/
theorem claim8_notfound_distinct_by_message (r : Record) (old np : List Char)
    (hok : mkPhone np = .ok np) (hmem : old ∉ r.phones) :
    (r.edit_phone old np).1 = .error ⟨.valueError, notFoundMsg old⟩ ∧
    PyErr.kind ⟨.valueError, notFoundMsg old⟩ = phoneErr.kind ∧
    PyErr.kind ⟨.valueError, notFoundMsg old⟩ = dateFmtErr.kind ∧
    notFoundMsg old ≠ phoneErrMsg ∧ notFoundMsg old ≠ dateFmtErrMsg := by
  refine ⟨?_, rfl, rfl, notFoundMsg_ne_phoneErrMsg old, notFoundMsg_ne_dateFmtErrMsg old⟩
  simp [Record.edit_phone, hok, editLoop_not_mem np old r.phones hmem]

/-- Witness for the amended C8 at a concrete record. -/
theorem claim8_witness :
    (Record.edit_phone ⟨"B".toList, ["2222222222".toList], none⟩
        "7777777777".toList "0000000000".toList).1
      = .error ⟨.valueError, notFoundMsg "7777777777".toList⟩ ∧
    PyErr.kind ⟨.valueError, notFoundMsg "7777777777".toList⟩ = phoneErr.kind ∧
    PyErr.kind ⟨.valueError, notFoundMsg "7777777777".toList⟩ = dateFmtErr.kind ∧
    notFoundMsg "7777777777".toList ≠ phoneErrMsg ∧
    notFoundMsg "7777777777".toList ≠ dateFmtErrMsg :=
  claim8_notfound_distinct_by_message ⟨"B".toList, ["2222222222".toList], none⟩
    "7777777777".toList "0000000000".toList (by decide) (by decide)

theorem getUB_error_of_process_error (today : PyDate) (days : Int) :
    ∀ (book : AddressBook) (r : Record), r ∈ book →
      (∃ e, processRecord today days r = .error e) →
      ∃ e2, get_upcoming_birthdays today days book = .error e2 := by
  intro book
  induction book with
  | nil => intro r hr; exact absurd hr (List.not_mem_nil r)
  | cons q rest ih =>
    intro r hr ⟨e, he⟩
    rcases List.mem_cons.mp hr with hq | hrest
    · subst hq
      exact ⟨e, by simp [get_upcoming_birthdays, he]⟩
    · cases hp : processRecord today days q with
      | error e3 => exact ⟨e3, by simp [get_upcoming_birthdays, hp]⟩
      | ok o =>
        obtain ⟨e4, he4⟩ := ih r hrest ⟨e, he⟩
        cases o with
        | none => exact ⟨e4, by simp [get_upcoming_birthdays, hp, he4]⟩
        | some entry => exact ⟨e4, by simp [get_upcoming_birthdays, hp, he4]⟩

/-- Claim C10: a February-29 birthday whose target year (the current year, or
the next one after the wrap) has no February 29 makes the `replace` raise, so
the entire `get_upcoming_birthdays` call fails with an error and returns no
list at all — entries for every other record are lost with it. -/
theorem claim10_feb29_aborts_whole_query (book : AddressBook) (days : Int)
    (today : PyDate) (r : Record) (bd : PyDate)
    (hr : r ∈ book) (hb : r.birthday = some bd) (hm : bd.month = 2)
    (hd : bd.day = 29)
    (htgt : isLeap today.year = false ∨
      ((⟨today.year, 2, 29⟩ : PyDate).Before today ∧
        isLeap (today.year + 1) = false)) :
    ∃ e, get_upcoming_birthdays today days book = .error e := by
  apply getUB_error_of_process_error today days book r hr
  obtain ⟨by_, bm, bday⟩ := bd
  simp only at hm hd
  subst hm hd
  by_cases hv1 : PyDate.Valid ⟨today.year, 2, 29⟩
  · have hleap : isLeap today.year = true := by
      by_contra hnl
      rw [Bool.not_eq_true] at hnl
      have h28 : (29 : Nat) ≤ daysInMonth today.year 2 := hv1.2.2.2.2.2
      rw [show daysInMonth today.year 2 = 28 by simp [daysInMonth, hnl]] at h28
      omega
    rcases htgt with hl | ⟨hbef, hnl2⟩
    · rw [hleap] at hl; exact absurd hl (by simp)
    · have hv2 : ¬PyDate.Valid ⟨today.year + 1, 2, 29⟩ := by
        intro hv
        have h28 : (29 : Nat) ≤ daysInMonth (today.year + 1) 2 := hv.2.2.2.2.2
        rw [show daysInMonth (today.year + 1) 2 = 28 by simp [daysInMonth, hnl2]] at h28
        omega
      refine ⟨⟨.valueError, dateRangeErrMsg⟩, ?_⟩
      simp [processRecord, hb, replaceYear, hv1, hv2, hbef]
  · refine ⟨⟨.valueError, dateRangeErrMsg⟩, ?_⟩
    simp [processRecord, hb, replaceYear, hv1]

/-- Witness for C10: a book with a Feb-29 contact and an ordinary contact;
in non-leap 2025 the whole query errors (the ordinary contact's entry too). -/
theorem claim10_witness :
    ∃ e, get_upcoming_birthdays ⟨2025, 3, 1⟩ 7
      [⟨"A".toList, [], some ⟨2000, 2, 29⟩⟩, ⟨"B".toList, [], some ⟨1990, 6, 15⟩⟩]
      = .error e :=
  claim10_feb29_aborts_whole_query _ 7 ⟨2025, 3, 1⟩
    ⟨"A".toList, [], some ⟨2000, 2, 29⟩⟩ ⟨2000, 2, 29⟩
    (by decide) rfl rfl rfl (Or.inl (by decide))

theorem inWindowSpec_iff_dateSub (occ today : PyDate) (days : Int) :
    InWindowSpec occ today days ↔
      (0 ≤ dateSub occ today ∧ dateSub occ today ≤ days) := by
  unfold InWindowSpec dateSub
  omega

/-- The source weekend adjustment equals the spec's Saturday → +2, Sunday → +1,
weekday → unchanged policy. -/
theorem adjust_for_weekend_eq_shiftSpec (d : PyDate) :
    adjust_for_weekend d = weekendShiftSpec d := by
  have h7 : d.weekday < 7 := Nat.mod_lt _ (by omega)
  by_cases h5 : d.weekday = 5
  · simp [adjust_for_weekend, weekendShiftSpec, find_next_weekday, h5]
  · by_cases h6 : d.weekday = 6
    · simp [adjust_for_weekend, weekendShiftSpec, find_next_weekday, h6]
    · have hlt : d.weekday < 5 := by omega
      simp [adjust_for_weekend, weekendShiftSpec, Nat.not_le.mpr hlt, h5, h6]

/-- Full case analysis of one loop iteration that returned without raising. -/
theorem processRecord_ok_cases (today : PyDate) (days : Int) (r : Record)
    (o : Option (List Char × List Char))
    (h : processRecord today days r = .ok o) :
    (r.birthday = none ∧ o = none) ∨
    ∃ bd, r.birthday = some bd ∧ RepOk bd today ∧
      (((0 ≤ dateSub (occurrenceSpec bd today) today ∧
          dateSub (occurrenceSpec bd today) today ≤ days) ∧
        o = some (r.name,
          strftimeDMY (adjust_for_weekend (occurrenceSpec bd today)))) ∨
       (¬(0 ≤ dateSub (occurrenceSpec bd today) today ∧
          dateSub (occurrenceSpec bd today) today ≤ days) ∧ o = none)) := by
  cases hb : r.birthday with
  | none =>
    left
    refine ⟨rfl, ?_⟩
    simp [processRecord, hb] at h
    exact h.symm
  | some bd =>
    right
    by_cases hv1 : PyDate.Valid ⟨today.year, bd.month, bd.day⟩
    · by_cases hbef : (⟨today.year, bd.month, bd.day⟩ : PyDate).Before today
      · have hocc : occurrenceSpec bd today = ⟨today.year + 1, bd.month, bd.day⟩ := by
          simp [occurrenceSpec, hbef]
        by_cases hv2 : PyDate.Valid ⟨today.year + 1, bd.month, bd.day⟩
        · by_cases hw : 0 ≤ dateSub (occurrenceSpec bd today) today ∧
              dateSub (occurrenceSpec bd today) today ≤ days
          · have hw2 := hw
            rw [hocc] at hw2
            have hcomp : processRecord today days r
                = .ok (some (r.name,
                    strftimeDMY (adjust_for_weekend (occurrenceSpec bd today)))) := by
              simp [processRecord, hb, replaceYear, hv1, hv2, hbef, hw2, hocc]
            rw [hcomp] at h
            refine ⟨bd, rfl, ⟨hv1, fun _ => hv2⟩, Or.inl ⟨hw, ?_⟩⟩
            exact (Except.ok.inj h).symm
          · have hw2 : ¬(0 ≤ dateSub ⟨today.year + 1, bd.month, bd.day⟩ today ∧
                dateSub ⟨today.year + 1, bd.month, bd.day⟩ today ≤ days) := by
              rw [← hocc]; exact hw
            have hcomp : processRecord today days r = .ok none := by
              simp [processRecord, hb, replaceYear, hv1, hv2, hbef, hw2]
            rw [hcomp] at h
            exact ⟨bd, rfl, ⟨hv1, fun _ => hv2⟩, Or.inr ⟨hw, (Except.ok.inj h).symm⟩⟩
        · have hcomp : processRecord today days r
              = .error ⟨.valueError, dateRangeErrMsg⟩ := by
            simp [processRecord, hb, replaceYear, hv1, hv2, hbef]
          rw [hcomp] at h
          exact absurd h (by simp)
      · have hocc : occurrenceSpec bd today = ⟨today.year, bd.month, bd.day⟩ := by
          simp [occurrenceSpec, hbef]
        by_cases hw : 0 ≤ dateSub (occurrenceSpec bd today) today ∧
            dateSub (occurrenceSpec bd today) today ≤ days
        · have hw2 := hw
          rw [hocc] at hw2
          have hcomp : processRecord today days r
              = .ok (some (r.name,
                  strftimeDMY (adjust_for_weekend (occurrenceSpec bd today)))) := by
            simp [processRecord, hb, replaceYear, hv1, hbef, hw2, hocc]
          rw [hcomp] at h
          refine ⟨bd, rfl, ⟨hv1, fun c => absurd c hbef⟩, Or.inl ⟨hw, ?_⟩⟩
          exact (Except.ok.inj h).symm
        · have hw2 : ¬(0 ≤ dateSub ⟨today.year, bd.month, bd.day⟩ today ∧
              dateSub ⟨today.year, bd.month, bd.day⟩ today ≤ days) := by
            rw [← hocc]; exact hw
          have hcomp : processRecord today days r = .ok none := by
            simp [processRecord, hb, replaceYear, hv1, hbef, hw2]
          rw [hcomp] at h
          exact ⟨bd, rfl, ⟨hv1, fun c => absurd c hbef⟩, Or.inr ⟨hw, (Except.ok.inj h).symm⟩⟩
    · have hcomp : processRecord today days r = .error ⟨.valueError, dateRangeErrMsg⟩ := by
        simp [processRecord, hb, replaceYear, hv1]
      rw [hcomp] at h
      exact absurd h (by simp)

theorem getUB_ok_forall (today : PyDate) (days : Int) :
    ∀ (book : AddressBook) (res : List (List Char × List Char)),
      get_upcoming_birthdays today days book = .ok res →
      ∀ r ∈ book, ∃ o, processRecord today days r = .ok o := by
  intro book
  induction book with
  | nil => intro res _ r hr; exact absurd hr (List.not_mem_nil r)
  | cons q rest ih =>
    intro res h r hr
    cases hp : processRecord today days q with
    | error e =>
      rw [show get_upcoming_birthdays today days (q :: rest) = .error e from by
        simp [get_upcoming_birthdays, hp]] at h
      exact absurd h (by simp)
    | ok o =>
      rcases List.mem_cons.mp hr with rfl | hrest
      · exact ⟨o, hp⟩
      · cases o with
        | none =>
          rw [show get_upcoming_birthdays today days (q :: rest)
              = get_upcoming_birthdays today days rest from by
            simp [get_upcoming_birthdays, hp]] at h
          exact ih res h r hrest
        | some entry =>
          cases hrec : get_upcoming_birthdays today days rest with
          | error e =>
            rw [show get_upcoming_birthdays today days (q :: rest) = .error e from by
              simp [get_upcoming_birthdays, hp, hrec]] at h
            exact absurd h (by simp)
          | ok res2 => exact ih res2 hrec r hrest

theorem getUB_mem_of_process_some (today : PyDate) (days : Int) :
    ∀ (book : AddressBook) (res : List (List Char × List Char)) (r : Record)
      (entry : List Char × List Char),
      get_upcoming_birthdays today days book = .ok res → r ∈ book →
      processRecord today days r = .ok (some entry) → entry ∈ res := by
  intro book
  induction book with
  | nil => intro res r entry _ hr; exact absurd hr (List.not_mem_nil r)
  | cons q rest ih =>
    intro res r entry h hr hpr
    cases hp : processRecord today days q with
    | error e =>
      rw [show get_upcoming_birthdays today days (q :: rest) = .error e from by
        simp [get_upcoming_birthdays, hp]] at h
      exact absurd h (by simp)
    | ok o =>
      cases o with
      | none =>
        rw [show get_upcoming_birthdays today days (q :: rest)
            = get_upcoming_birthdays today days rest from by
          simp [get_upcoming_birthdays, hp]] at h
        rcases List.mem_cons.mp hr with rfl | hrest
        · rw [hp] at hpr; exact absurd hpr (by simp)
        · exact ih res r entry h hrest hpr
      | some e2 =>
        cases hrec : get_upcoming_birthdays today days rest with
        | error e =>
          rw [show get_upcoming_birthdays today days (q :: rest) = .error e from by
            simp [get_upcoming_birthdays, hp, hrec]] at h
          exact absurd h (by simp)
        | ok res2 =>
          rw [show get_upcoming_birthdays today days (q :: rest) = .ok (e2 :: res2) from by
            simp [get_upcoming_birthdays, hp, hrec]] at h
          obtain rfl := Except.ok.inj h
          rcases List.mem_cons.mp hr with rfl | hrest
          · rw [hp] at hpr
            obtain rfl := Option.some.inj (Except.ok.inj hpr)
            exact List.mem_cons_self _ _
          · exact List.mem_cons_of_mem _ (ih res2 r entry hrec hrest hpr)

theorem getUB_mem_source (today : PyDate) (days : Int) :
    ∀ (book : AddressBook) (res : List (List Char × List Char))
      (entry : List Char × List Char),
      get_upcoming_birthdays today days book = .ok res → entry ∈ res →
      ∃ r ∈ book, processRecord today days r = .ok (some entry) := by
  intro book
  induction book with
  | nil =>
    intro res entry h hmem
    obtain rfl := Except.ok.inj h
    exact absurd hmem (List.not_mem_nil entry)
  | cons q rest ih =>
    intro res entry h hmem
    cases hp : processRecord today days q with
    | error e =>
      rw [show get_upcoming_birthdays today days (q :: rest) = .error e from by
        simp [get_upcoming_birthdays, hp]] at h
      exact absurd h (by simp)
    | ok o =>
      cases o with
      | none =>
        rw [show get_upcoming_birthdays today days (q :: rest)
            = get_upcoming_birthdays today days rest from by
          simp [get_upcoming_birthdays, hp]] at h
        obtain ⟨r, hr, hpr⟩ := ih res entry h hmem
        exact ⟨r, List.mem_cons_of_mem _ hr, hpr⟩
      | some e2 =>
        cases hrec : get_upcoming_birthdays today days rest with
        | error e =>
          rw [show get_upcoming_birthdays today days (q :: rest) = .error e from by
            simp [get_upcoming_birthdays, hp, hrec]] at h
          exact absurd h (by simp)
        | ok res2 =>
          rw [show get_upcoming_birthdays today days (q :: rest) = .ok (e2 :: res2) from by
            simp [get_upcoming_birthdays, hp, hrec]] at h
          obtain rfl := Except.ok.inj h
          rcases List.mem_cons.mp hmem with rfl | htail
          · exact ⟨q, List.mem_cons_self _ _, hp⟩
          · obtain ⟨r, hr, hpr⟩ := ih res2 entry hrec htail
            exact ⟨r, List.mem_cons_of_mem _ hr, hpr⟩

/-- Claim C1: in a successful query over a book with distinct names, a record
with a birthday contributes an entry exactly when its occurrence — this year's
month/day, advanced by one year only when strictly before today — lies in
`[today, today + days]`, both ends included; a record without a birthday never
contributes. -/
theorem claim1_window_iff (book : AddressBook) (days : Int) (today : PyDate)
    (res : List (List Char × List Char)) (r : Record)
    (hnd : (book.map Record.name).Nodup)
    (hok : get_upcoming_birthdays today days book = .ok res)
    (hr : r ∈ book) :
    (r.birthday = none → ∀ e ∈ res, e.1 ≠ r.name) ∧
    (∀ bd, r.birthday = some bd →
      ((∃ e ∈ res, e.1 = r.name) ↔
        InWindowSpec (occurrenceSpec bd today) today days)) := by
  constructor
  · intro hbn e he hne
    obtain ⟨r2, hr2, hp2⟩ := getUB_mem_source today days book res e hok he
    rcases processRecord_ok_cases today days r2 _ hp2 with ⟨_, hco⟩ | ⟨bd2, hb2, _, hcase⟩
    · exact absurd hco (by simp)
    · have hname : e.1 = r2.name := by
        rcases hcase with ⟨_, hco⟩ | ⟨_, hco⟩
        · obtain rfl := Option.some.inj hco; rfl
        · exact absurd hco (by simp)
      have : r2 = r :=
        List.inj_on_of_nodup_map hnd hr2 hr (by rw [← hname, hne])
      rw [this] at hb2
      rw [hbn] at hb2
      exact absurd hb2 (by simp)
  · intro bd hb
    constructor
    · rintro ⟨e, he, hne⟩
      obtain ⟨r2, hr2, hp2⟩ := getUB_mem_source today days book res e hok he
      rcases processRecord_ok_cases today days r2 _ hp2 with ⟨_, hco⟩ | ⟨bd2, hb2, _, hcase⟩
      · exact absurd hco (by simp)
      · rcases hcase with ⟨hw, hco⟩ | ⟨_, hco⟩
        · obtain rfl := Option.some.inj hco
          have : r2 = r := List.inj_on_of_nodup_map hnd hr2 hr hne
          subst this
          rw [hb] at hb2
          obtain rfl := Option.some.inj hb2
          exact (inWindowSpec_iff_dateSub _ _ _).mpr hw
        · exact absurd hco (by simp)
    · intro hwin
      obtain ⟨o, ho⟩ := getUB_ok_forall today days book res hok r hr
      rcases processRecord_ok_cases today days r _ ho with ⟨hbn, _⟩ | ⟨bd2, hb2, _, hcase⟩
      · rw [hb] at hbn; exact absurd hbn (by simp)
      · rw [hb] at hb2
        obtain rfl := Option.some.inj hb2
        rcases hcase with ⟨_, hco⟩ | ⟨hnw, _⟩
        · subst hco
          refine ⟨(r.name, strftimeDMY (adjust_for_weekend (occurrenceSpec bd today))),
            getUB_mem_of_process_some today days book res r _ hok hr ho, rfl⟩
        · exact absurd ((inWindowSpec_iff_dateSub _ _ _).mp hwin) hnw

/-- Witness for C1: a book with one in-window contact and one birthday-less
contact; the query lists exactly the first. -/
theorem claim1_witness :
    get_upcoming_birthdays ⟨2025, 10, 8⟩ 7
        [⟨"Alice".toList, [], some ⟨1990, 10, 15⟩⟩, ⟨"Bob".toList, [], none⟩]
      = .ok [("Alice".toList, "15.10.2025".toList)] ∧
    (∃ e ∈ [(("Alice".toList : List Char), ("15.10.2025".toList : List Char))],
      e.1 = "Alice".toList) :=
  ⟨by decide,
   ((claim1_window_iff
      [⟨"Alice".toList, [], some ⟨1990, 10, 15⟩⟩, ⟨"Bob".toList, [], none⟩]
      7 ⟨2025, 10, 8⟩ [("Alice".toList, "15.10.2025".toList)]
      ⟨"Alice".toList, [], some ⟨1990, 10, 15⟩⟩
      (by decide) (by decide) (by decide)).2 ⟨1990, 10, 15⟩ rfl).mpr (by decide)⟩

/-- Claim C2: a record whose (pre-shift) occurrence lies in the window is
emitted with the weekend-shifted date — Saturday +2, Sunday +1, weekday
unchanged — formatted `DD.MM.YYYY`; the shift happens after the window check,
so a shifted date past `today + days` is still emitted. -/
theorem claim2_weekend_shift (book : AddressBook) (days : Int) (today : PyDate)
    (res : List (List Char × List Char)) (r : Record) (bd : PyDate)
    (hok : get_upcoming_birthdays today days book = .ok res)
    (hr : r ∈ book) (hb : r.birthday = some bd)
    (hwin : InWindowSpec (occurrenceSpec bd today) today days) :
    (r.name, strftimeDMY (weekendShiftSpec (occurrenceSpec bd today))) ∈ res := by
  obtain ⟨o, ho⟩ := getUB_ok_forall today days book res hok r hr
  rcases processRecord_ok_cases today days r _ ho with ⟨hbn, _⟩ | ⟨bd2, hb2, _, hcase⟩
  · rw [hb] at hbn; exact absurd hbn (by simp)
  · rw [hb] at hb2
    obtain rfl := Option.some.inj hb2
    rcases hcase with ⟨_, hco⟩ | ⟨hnw, _⟩
    · subst hco
      rw [← adjust_for_weekend_eq_shiftSpec]
      exact getUB_mem_of_process_some today days book res r _ hok hr ho
    · exact absurd ((inWindowSpec_iff_dateSub _ _ _).mp hwin) hnw

/-- Witness for C2: a Saturday occurrence on the window's last day is emitted
as the following Monday, two days past the window bound. -/
theorem claim2_witness :
    get_upcoming_birthdays ⟨2025, 10, 8⟩ 3 [⟨"Carol".toList, [], some ⟨1990, 10, 11⟩⟩]
      = .ok [("Carol".toList, "13.10.2025".toList)] ∧
    ("Carol".toList,
        strftimeDMY (weekendShiftSpec (occurrenceSpec ⟨1990, 10, 11⟩ ⟨2025, 10, 8⟩)))
      ∈ [(("Carol".toList : List Char), ("13.10.2025".toList : List Char))] :=
  ⟨by decide,
   claim2_weekend_shift [⟨"Carol".toList, [], some ⟨1990, 10, 11⟩⟩] 3 ⟨2025, 10, 8⟩
     [("Carol".toList, "13.10.2025".toList)] ⟨"Carol".toList, [], some ⟨1990, 10, 11⟩⟩
     ⟨1990, 10, 11⟩ (by decide) (by decide) rfl (by decide)⟩

theorem charToNat_inj {a b : Char} (h : a.toNat = b.toNat) : a = b :=
  Char.ext (UInt32.ext h)

theorem dayTokVal_eq_some_iff (t : List Char) (v : Nat) :
    dayTokVal t = some v ↔ DayTokSpec t v := by
  cases t with
  | nil => simp [dayTokVal, DayTokSpec]
  | cons c1 t1 =>
    cases t1 with
    | nil =>
      constructor
      · intro h
        simp only [dayTokVal, isDig19, Bool.and_eq_true, decide_eq_true_eq] at h
        split_ifs at h with h19
        obtain hv := Option.some.inj h
        simp only [chVal] at hv
        exact Or.inr (Or.inl ⟨c1, rfl, ⟨by omega, by omega⟩, by omega, by omega⟩)
      · intro h
        rcases h with ⟨c1', c2', v1, v2, heq, _, _, _, _, _⟩ |
          ⟨c, heq, hch, hge, hle⟩ | ⟨c, heq, _, _, _⟩
        · exact absurd heq (by simp)
        · simp only [List.cons.injEq, and_true] at heq
          subst heq
          obtain ⟨hct, hv9⟩ := hch
          simp only [dayTokVal, isDig19, Bool.and_eq_true, decide_eq_true_eq, chVal]
          rw [if_pos (by omega)]
          simp only [Option.some.injEq]
          omega
        · exact absurd heq (by simp)
    | cons c2 t2 =>
      cases t2 with
      | cons c3 t3 =>
        constructor
        · intro h; exact absurd h (by simp [dayTokVal])
        · intro h
          rcases h with ⟨c1', c2', v1, v2, heq, _, _, _, _, _⟩ |
            ⟨c, heq, _, _, _⟩ | ⟨c, heq, _, _, _⟩ <;> exact absurd heq (by simp)
      | nil =>
        constructor
        · intro h
          simp only [dayTokVal, isDig19, isDig, Bool.and_eq_true, decide_eq_true_eq,
            chVal] at h
          split_ifs at h with hA hG1 hB hC hD hE hF hG
          · obtain hv := Option.some.inj h
            have hsp : c1 = ' ' :=
              charToNat_inj (hA.trans (show (32 : Nat) = (' ' : Char).toNat by decide))
            subst hsp
            exact Or.inr (Or.inr ⟨c2, rfl, ⟨by omega, by omega⟩, by omega, by omega⟩)
          · obtain hv := Option.some.inj h
            exact Or.inl ⟨c1, c2, 3, c2.toNat - 48, rfl, ⟨by omega, by omega⟩,
              ⟨by omega, by omega⟩, by omega, by omega, by omega⟩
          · obtain hv := Option.some.inj h
            exact Or.inl ⟨c1, c2, c1.toNat - 48, c2.toNat - 48, rfl,
              ⟨by omega, by omega⟩, ⟨by omega, by omega⟩, by omega, by omega, by omega⟩
          · obtain hv := Option.some.inj h
            exact Or.inl ⟨c1, c2, 0, c2.toNat - 48, rfl, ⟨by omega, by omega⟩,
              ⟨by omega, by omega⟩, by omega, by omega, by omega⟩
        · intro h
          rcases h with ⟨c1', c2', v1, v2, heq, hch1, hch2, hv, hge, hle⟩ |
            ⟨c, heq, _, _, _⟩ | ⟨c, heq, hch, hge, hle⟩
          · simp only [List.cons.injEq, and_true] at heq
            obtain ⟨rfl, rfl⟩ := heq
            obtain ⟨hct1, hb1⟩ := hch1
            obtain ⟨hct2, hb2⟩ := hch2
            simp only [dayTokVal, isDig19, isDig, Bool.and_eq_true, decide_eq_true_eq,
              chVal]
            split_ifs with hA hG1 hB hC hD hE hF hG <;>
              first
                | (exfalso; omega)
                | (simp only [Option.some.injEq]; omega)
          · exact absurd heq (by simp)
          · simp only [List.cons.injEq, and_true] at heq
            obtain ⟨rfl, rfl⟩ := heq
            obtain ⟨hct, hb⟩ := hch
            simp only [dayTokVal, isDig19, isDig, Bool.and_eq_true, decide_eq_true_eq,
              chVal, show (' ' : Char).toNat = 32 from by decide]
            split_ifs with hA hG1 hB <;>
              first
                | (exfalso; omega)
                | (simp only [Option.some.injEq]; omega)

theorem monthTokVal_eq_some_iff (t : List Char) (v : Nat) :
    monthTokVal t = some v ↔ MonthTokSpec t v := by
  cases t with
  | nil => simp [monthTokVal, MonthTokSpec]
  | cons c1 t1 =>
    cases t1 with
    | nil =>
      constructor
      · intro h
        simp only [monthTokVal, isDig19, Bool.and_eq_true, decide_eq_true_eq] at h
        split_ifs at h with h19
        obtain hv := Option.some.inj h
        simp only [chVal] at hv
        exact Or.inr ⟨c1, rfl, ⟨by omega, by omega⟩, by omega, by omega⟩
      · intro h
        rcases h with ⟨c1', c2', v1, v2, heq, _, _, _, _, _⟩ | ⟨c, heq, hch, hge, hle⟩
        · exact absurd heq (by simp)
        · simp only [List.cons.injEq, and_true] at heq
          subst heq
          obtain ⟨hct, hv9⟩ := hch
          simp only [monthTokVal, isDig19, Bool.and_eq_true, decide_eq_true_eq, chVal]
          rw [if_pos (by omega)]
          simp only [Option.some.injEq]
          omega
    | cons c2 t2 =>
      cases t2 with
      | cons c3 t3 =>
        constructor
        · intro h; exact absurd h (by simp [monthTokVal])
        · intro h
          rcases h with ⟨c1', c2', v1, v2, heq, _, _, _, _, _⟩ |
            ⟨c, heq, _, _, _⟩ <;> exact absurd heq (by simp)
      | nil =>
        constructor
        · intro h
          simp only [monthTokVal, isDig19, Bool.and_eq_true, decide_eq_true_eq,
            chVal] at h
          split_ifs at h with hA hC hF hG
          · obtain hv := Option.some.inj h
            exact Or.inl ⟨c1, c2, 1, c2.toNat - 48, rfl, ⟨by omega, by omega⟩,
              ⟨by omega, by omega⟩, by omega, by omega, by omega⟩
          · obtain hv := Option.some.inj h
            exact Or.inl ⟨c1, c2, 0, c2.toNat - 48, rfl, ⟨by omega, by omega⟩,
              ⟨by omega, by omega⟩, by omega, by omega, by omega⟩
        · intro h
          rcases h with ⟨c1', c2', v1, v2, heq, hch1, hch2, hv, hge, hle⟩ |
            ⟨c, heq, _, _, _⟩
          · simp only [List.cons.injEq, and_true] at heq
            obtain ⟨rfl, rfl⟩ := heq
            obtain ⟨hct1, hb1⟩ := hch1
            obtain ⟨hct2, hb2⟩ := hch2
            simp only [monthTokVal, isDig19, Bool.and_eq_true, decide_eq_true_eq, chVal]
            split_ifs with hA hC hF hG <;>
              first
                | (exfalso; omega)
                | (simp only [Option.some.injEq]; omega)
          · exact absurd heq (by simp)

theorem yearTokVal_eq_some_iff (t : List Char) (v : Nat) :
    yearTokVal t = some v ↔ YearTokSpec t v := by
  rcases t with _ | ⟨c1, _ | ⟨c2, _ | ⟨c3, _ | ⟨c4, _ | ⟨c5, t5⟩⟩⟩⟩⟩
  · simp [yearTokVal, YearTokSpec]
  · simp [yearTokVal, YearTokSpec]
  · simp [yearTokVal, YearTokSpec]
  · simp [yearTokVal, YearTokSpec]
  · constructor
    · intro h
      simp only [yearTokVal, isDig, Bool.and_eq_true, decide_eq_true_eq, chVal] at h
      split_ifs at h with hd
      obtain hv := Option.some.inj h
      exact ⟨c1, c2, c3, c4, c1.toNat - 48, c2.toNat - 48, c3.toNat - 48, c4.toNat - 48,
        rfl, ⟨by omega, by omega⟩, ⟨by omega, by omega⟩, ⟨by omega, by omega⟩,
        ⟨by omega, by omega⟩, by omega⟩
    · intro h
      obtain ⟨c1', c2', c3', c4', v1, v2, v3, v4, heq, hch1, hch2, hch3, hch4, hv⟩ := h
      simp only [List.cons.injEq, and_true] at heq
      obtain ⟨rfl, rfl, rfl, rfl⟩ := heq
      obtain ⟨hct1, hb1⟩ := hch1
      obtain ⟨hct2, hb2⟩ := hch2
      obtain ⟨hct3, hb3⟩ := hch3
      obtain ⟨hct4, hb4⟩ := hch4
      simp only [yearTokVal, isDig, Bool.and_eq_true, decide_eq_true_eq, chVal]
      rw [if_pos (by omega)]
      simp only [Option.some.injEq]
      omega
  · simp [yearTokVal, YearTokSpec]

theorem splitOnDot_ne_nil (s : List Char) : splitOnDot s ≠ [] := by
  induction s with
  | nil => simp [splitOnDot]
  | cons c rest ih =>
    simp only [splitOnDot]
    split_ifs with hc
    · simp
    · cases hrec : splitOnDot rest with
      | nil => simp
      | cons t ts => simp

theorem joinDots_splitOnDot (s : List Char) :
    joinDots (splitOnDot s) = s ∧ ∀ t ∈ splitOnDot s, ('.' : Char) ∉ t := by
  induction s with
  | nil =>
    refine ⟨rfl, ?_⟩
    intro t ht
    simp only [splitOnDot, List.mem_singleton] at ht
    subst ht
    simp
  | cons c rest ih =>
    obtain ⟨ihj, ihd⟩ := ih
    by_cases hc : c = '.'
    · subst hc
      simp only [splitOnDot, if_pos rfl]
      constructor
      · cases hrec : splitOnDot rest with
        | nil => exact absurd hrec (splitOnDot_ne_nil rest)
        | cons t ts =>
          rw [hrec] at ihj
          show ('.' : Char) :: joinDots (t :: ts) = '.' :: rest
          rw [ihj]
      · intro t ht
        rcases List.mem_cons.mp ht with rfl | h2
        · simp
        · exact ihd t h2
    · simp only [splitOnDot, if_neg hc]
      cases hrec : splitOnDot rest with
      | nil => exact absurd hrec (splitOnDot_ne_nil rest)
      | cons t ts =>
        rw [hrec] at ihj ihd
        constructor
        · cases ts with
          | nil =>
            show c :: t = c :: rest
            have ht : t = rest := ihj
            rw [ht]
          | cons t2 ts2 =>
            show (c :: t) ++ '.' :: joinDots (t2 :: ts2) = c :: rest
            rw [List.cons_append]
            have ht : t ++ '.' :: joinDots (t2 :: ts2) = rest := ihj
            rw [ht]
        · intro u hu
          rcases List.mem_cons.mp hu with rfl | h2
          · intro hmem
            rcases List.mem_cons.mp hmem with he | hm2
            · exact hc he.symm
            · exact ihd t (List.mem_cons_self _ _) hm2
          · exact ihd u (List.mem_cons_of_mem _ h2)

theorem splitOnDot_three (s d m y : List Char) (h : splitOnDot s = [d, m, y]) :
    s = d ++ '.' :: (m ++ '.' :: y) ∧
      ('.' : Char) ∉ d ∧ ('.' : Char) ∉ m ∧ ('.' : Char) ∉ y := by
  obtain ⟨hj, hd⟩ := joinDots_splitOnDot s
  rw [h] at hj hd
  refine ⟨?_, hd d (by simp), hd m (by simp), hd y (by simp)⟩
  rw [← hj]
  rfl

theorem splitOnDot_no_dot (s : List Char) (h : ('.' : Char) ∉ s) :
    splitOnDot s = [s] := by
  induction s with
  | nil => rfl
  | cons c rest ih =>
    have hc : ¬(c = '.') := fun e => h (by simp [e])
    have hrest : ('.' : Char) ∉ rest := fun e => h (List.mem_cons_of_mem _ e)
    simp only [splitOnDot, if_neg hc, ih hrest]

theorem splitOnDot_append_dot (a b : List Char) (h : ('.' : Char) ∉ a) :
    splitOnDot (a ++ '.' :: b) = a :: splitOnDot b := by
  induction a with
  | nil => simp [splitOnDot]
  | cons c as ih =>
    have hc : ¬(c = '.') := fun e => h (by simp [e])
    have has : ('.' : Char) ∉ as := fun e => h (List.mem_cons_of_mem _ e)
    rw [List.cons_append]
    simp only [splitOnDot, if_neg hc, ih has]

theorem dayTokSpec_no_dot (t : List Char) (v : Nat) (h : DayTokSpec t v) :
    ('.' : Char) ∉ t := by
  have h46 : ('.' : Char).toNat = 46 := by decide
  rcases h with ⟨c1, c2, v1, v2, rfl, h1, h2, _⟩ | ⟨c, rfl, hch, _⟩ | ⟨c, rfl, hch, _⟩ <;>
    intro hm
  · rcases List.mem_cons.mp hm with rfl | hm2
    · obtain ⟨he, hb⟩ := h1; omega
    · rcases List.mem_singleton.mp hm2 with rfl
      obtain ⟨he, hb⟩ := h2; omega
  · rcases List.mem_singleton.mp hm with rfl
    obtain ⟨he, hb⟩ := hch; omega
  · rcases List.mem_cons.mp hm with he | hm2
    · rw [he] at h46; revert h46; decide
    · rcases List.mem_singleton.mp hm2 with rfl
      obtain ⟨he, hb⟩ := hch; omega

theorem monthTokSpec_no_dot (t : List Char) (v : Nat) (h : MonthTokSpec t v) :
    ('.' : Char) ∉ t := by
  have h46 : ('.' : Char).toNat = 46 := by decide
  rcases h with ⟨c1, c2, v1, v2, rfl, h1, h2, _⟩ | ⟨c, rfl, hch, _⟩ <;> intro hm
  · rcases List.mem_cons.mp hm with rfl | hm2
    · obtain ⟨he, hb⟩ := h1; omega
    · rcases List.mem_singleton.mp hm2 with rfl
      obtain ⟨he, hb⟩ := h2; omega
  · rcases List.mem_singleton.mp hm with rfl
    obtain ⟨he, hb⟩ := hch; omega

theorem yearTokSpec_no_dot (t : List Char) (v : Nat) (h : YearTokSpec t v) :
    ('.' : Char) ∉ t := by
  have h46 : ('.' : Char).toNat = 46 := by decide
  obtain ⟨c1, c2, c3, c4, v1, v2, v3, v4, rfl, h1, h2, h3, h4, _⟩ := h
  intro hm
  rcases List.mem_cons.mp hm with rfl | hm2
  · obtain ⟨he, hb⟩ := h1; omega
  rcases List.mem_cons.mp hm2 with rfl | hm3
  · obtain ⟨he, hb⟩ := h2; omega
  rcases List.mem_cons.mp hm3 with rfl | hm4
  · obtain ⟨he, hb⟩ := h3; omega
  rcases List.mem_singleton.mp hm4 with rfl
  obtain ⟨he, hb⟩ := h4; omega

theorem strptimeDMY_some_accepts (s : List Char) (dt : PyDate)
    (h : strptimeDMY s = some dt) : BirthdayAccepts s := by
  unfold strptimeDMY at h
  rcases hsp : splitOnDot s with _ | ⟨a, _ | ⟨b, _ | ⟨c, _ | ⟨d, l4⟩⟩⟩⟩
  · rw [hsp] at h; simp at h
  · rw [hsp] at h; simp at h
  · rw [hsp] at h; simp at h
  · rw [hsp] at h
    simp at h
    cases hd : dayTokVal a with
    | none => rw [hd] at h; simp at h
    | some dv =>
      rw [hd] at h
      cases hm : monthTokVal b with
      | none => rw [hm] at h; simp at h
      | some mv =>
        rw [hm] at h
        cases hy : yearTokVal c with
        | none => rw [hy] at h; simp at h
        | some yv =>
          rw [hy] at h
          simp at h
          obtain ⟨hv, _⟩ := h
          obtain ⟨hshape, _, _, _⟩ := splitOnDot_three s a b c hsp
          exact ⟨a, b, c, dv, mv, yv, hshape,
            (dayTokVal_eq_some_iff a dv).mp hd,
            (monthTokVal_eq_some_iff b mv).mp hm,
            (yearTokVal_eq_some_iff c yv).mp hy, hv⟩
  · rw [hsp] at h; simp at h

theorem strptimeDMY_of_accepts (s : List Char) (h : BirthdayAccepts s) :
    ∃ dt, strptimeDMY s = some dt := by
  obtain ⟨dTok, mTok, yTok, dv, mv, yv, rfl, hd, hm, hy, hval⟩ := h
  have hsp : splitOnDot (dTok ++ '.' :: (mTok ++ '.' :: yTok)) = [dTok, mTok, yTok] := by
    rw [splitOnDot_append_dot _ _ (dayTokSpec_no_dot _ _ hd),
      splitOnDot_append_dot _ _ (monthTokSpec_no_dot _ _ hm),
      splitOnDot_no_dot _ (yearTokSpec_no_dot _ _ hy)]
  refine ⟨⟨yv, mv, dv⟩, ?_⟩
  unfold strptimeDMY
  rw [hsp]
  simp only [(dayTokVal_eq_some_iff dTok dv).mpr hd,
    (monthTokVal_eq_some_iff mTok mv).mpr hm,
    (yearTokVal_eq_some_iff yTok yv).mpr hy]
  rw [if_pos hval]

/-- Counterexample to C3 as stated: `strptime`'s `%d`/`%m` also accept
single-digit fields, so `"5.6.1990"` parses successfully where the claim says
any input without 2-digit day and month must fail. -/
theorem claim3_counterexample :
    mkBirthday "5.6.1990".toList = .ok ⟨1990, 6, 5⟩ := by decide

/-- Claim C3 as amended: `BirthdayDate` construction succeeds exactly when the
input is day.month.year where the day token is a two-digit `01`–`31`, a single
digit `1`–`9`, or a space followed by `1`–`9`, the month token is a two-digit
`01`–`12` or a single digit `1`–`9`, the year token is exactly four digits,
and the triple denotes a real calendar date; every other string fails with the
invalid-format `ValueError`. -/
theorem claim3_birthday_validation (s : List Char) :
    ((∃ dt, mkBirthday s = .ok dt) ↔ BirthdayAccepts s) ∧
    (¬ BirthdayAccepts s → mkBirthday s = .error dateFmtErr) := by
  constructor
  · constructor
    · rintro ⟨dt, h⟩
      unfold mkBirthday at h
      cases hsp : strptimeDMY s with
      | none => rw [hsp] at h; simp at h
      | some dt2 => exact strptimeDMY_some_accepts s dt2 hsp
    · intro ha
      obtain ⟨dt, h⟩ := strptimeDMY_of_accepts s ha
      exact ⟨dt, by unfold mkBirthday; rw [h]⟩
  · intro hna
    unfold mkBirthday
    cases hsp : strptimeDMY s with
    | some dt => exact absurd (strptimeDMY_some_accepts s dt hsp) hna
    | none => rfl

/-- Witness for the amended C3 at the spec's own test inputs. -/
theorem claim3_witness :
    (∃ dt, mkBirthday "15.06.1990".toList = .ok dt) ∧
    mkBirthday "1990.06.15".toList = .error dateFmtErr ∧
    mkBirthday "31.02.1990".toList = .error dateFmtErr := by
  refine ⟨?_, ?_, ?_⟩
  · refine (claim3_birthday_validation "15.06.1990".toList).1.mpr
      ⟨"15".toList, "06".toList, "1990".toList, 15, 6, 1990, by decide,
        Or.inl ⟨'1', '5', 1, 5, rfl, by decide, by decide, by decide, by decide, by decide⟩,
        Or.inl ⟨'0', '6', 0, 6, rfl, by decide, by decide, by decide, by decide, by decide⟩,
        ⟨'1', '9', '9', '0', 1, 9, 9, 0, rfl, by decide, by decide, by decide,
          by decide, by decide⟩,
        by decide⟩
  · refine (claim3_birthday_validation "1990.06.15".toList).2 (fun ha => ?_)
    have h := (claim3_birthday_validation "1990.06.15".toList).1.mpr ha
    rw [show mkBirthday "1990.06.15".toList = .error dateFmtErr from by decide] at h
    obtain ⟨dt, hdt⟩ := h
    exact Except.noConfusion hdt
  · refine (claim3_birthday_validation "31.02.1990".toList).2 (fun ha => ?_)
    have h := (claim3_birthday_validation "31.02.1990".toList).1.mpr ha
    rw [show mkBirthday "31.02.1990".toList = .error dateFmtErr from by decide] at h
    obtain ⟨dt, hdt⟩ := h
    exact Except.noConfusion hdt

end Bot
